import Mathlib

/-
A shallow embedding of LiquidMem (liquidmem.c / bitarray.h) in Lean 4.

Conventions of the embedding:
* `size_t` fields are modelled as `Nat`; byte offsets handed to release
  functions are modelled as `Int`, since the C code computes a `ptrdiff_t`
  from two pointers and checks it for negativity.
* A returned item pointer `data + item * itemSize` is modelled as the slot
  index `item` (for baths) or the byte offset (for creeks); a pool- or
  river-level result additionally carries the index of the member that
  served it.  Distinct members own disjoint malloc regions, so a member
  index plus an offset determines the C pointer.
* Every mutating C function of type `T * f(T *, ...)` or `void * f(T *, ...)`
  is modelled as a pure function returning `(result, new state)`; returning
  `none` as the result models the C function returning NULL.
* Backing allocation (malloc / calloc / realloc) success is modelled by a
  Boolean `reallocOk` parameter on the functions that grow a pool or river;
  the init functions below model the successful-allocation path.
-/

namespace LiquidMem

/-- The occupancy bit-array (bitarray.h): bit `i` is `useMap i`.  The C code
stores the bits packed in `unsigned int` words; since every operation of
bitarray.h used by liquidmem.c touches exactly the addressed bit, a function
`Nat → Bool` is a faithful model of the words. -/
def BitMap : Type := Nat → Bool

/-- bitArray_set: set bit `i` to 1. -/
def bitArray_set (m : BitMap) (i : Nat) : BitMap :=
  fun j => if j = i then true else m j

/-- bitArray_clear: clear bit `i` to 0. -/
def bitArray_clear (m : BitMap) (i : Nat) : BitMap :=
  fun j => if j = i then false else m j

/-- bitArray_test: test bit `i`. -/
def bitArray_test (m : BitMap) (i : Nat) : Bool := m i

/-- membath_s: a bath of `size` slots of `itemSize` bytes each.  `length` is
the number of slots in use, `firstFree` the cached free-slot hint and
`useMap` the occupancy bits.  The backing byte buffer `data` is not
represented: no bath operation reads or writes item bytes, and addresses are
modelled as byte offsets from `data`. -/
structure membath_s where
  size : Nat
  itemSize : Nat
  length : Nat
  firstFree : Nat
  useMap : BitMap

/-- membath_init on the path where both backing allocations succeed: the
C code sets the four scalar fields and gets a zeroed `useMap` from calloc. -/
def membath_init (size itemSize : Nat) : membath_s :=
  { size := size
    itemSize := itemSize
    length := 0
    firstFree := 0
    useMap := fun _ => false }

/-- membath_alloc: fail when `length >= size`; otherwise take the slot at
`firstFree`, set its bit, scan forward from that index for the next clear
bit (leaving `firstFree` untouched when none is found, exactly as the C
loop does), increment `length` and return the taken slot index. -/
def membath_alloc (bath : membath_s) : Option Nat × membath_s :=
  if bath.size ≤ bath.length then (none, bath)
  else
    let item := bath.firstFree
    let um := bitArray_set bath.useMap item
    let ff :=
      match (List.range' item (bath.size - item)).find?
          (fun i => !bitArray_test um i) with
      | some i => i
      | none => bath.firstFree
    (some item, { bath with useMap := um, firstFree := ff, length := bath.length + 1 })

/-- membath_release, with the argument pointer given as the byte offset
`off = ptr - bath->data` (an `Int`, as the C code computes a `ptrdiff_t`).
The C code first compares `ptr` against `data` and `data + size*itemSize`
(both comparisons inclusive of the end address) and then re-checks the same
bounds on the byte offset; both tests reduce to the single condition below.
No alignment check is performed; the slot index is the truncated quotient.
The C `length--` is a `size_t` decrement; the claims proved below never
depend on the decremented value in a state with `length = 0`, where the Nat
truncation differs from the C wrap-around. -/
def membath_release (bath : membath_s) (off : Int) : Option Unit × membath_s :=
  if off < 0 ∨ ((bath.size * bath.itemSize : Nat) : Int) < off then (none, bath)
  else
    let item := off.toNat / bath.itemSize
    let ff := if item < bath.firstFree then item else bath.firstFree
    (some (),
     { bath with firstFree := ff
                 useMap := bitArray_clear bath.useMap item
                 length := bath.length - 1 })

/-- Number of set occupancy bits of the bath (the bits with index below
`size`, i.e. the bits of the slots). -/
def popcount (bath : membath_s) : Nat :=
  (List.range bath.size).countP (fun i => bath.useMap i)

/-- mempool_s: `length` is the bath-count field of the C struct, `baths`
the contents of the heap array `baths`.  The two can disagree after the
realloc-failure path of `mempool_alloc`, exactly as in the C code. -/
structure mempool_s where
  length : Nat
  bathSize : Nat
  itemSize : Nat
  baths : List membath_s

/-- mempool_init on the successful-allocation path: one bath. -/
def mempool_init (bathSize itemSize : Nat) : mempool_s :=
  { length := 1
    bathSize := bathSize
    itemSize := itemSize
    baths := [membath_init bathSize itemSize] }

/-- mempool_alloc: try the bath at index `length - 1`; on failure increment
the `length` field (the C code does `++pool->length` before the realloc),
then, when the realloc succeeds, append a freshly initialized bath and
allocate from it.  When the realloc fails the C code returns NULL with the
`length` field already incremented.  The result carries the index of the
bath that served the allocation together with the slot index.  In a state
where `length - 1` indexes outside the array the C code dereferences out of
bounds; the model returns failure there (unreachable while
`length = baths.length ≥ 1`). -/
def mempool_alloc (reallocOk : Bool) (pool : mempool_s) : Option (Nat × Nat) × mempool_s :=
  match pool.baths.get? (pool.length - 1) with
  | none => (none, pool)
  | some last =>
    match (membath_alloc last).1 with
    | some item =>
        (some (pool.length - 1, item),
         { pool with baths := pool.baths.set (pool.length - 1) (membath_alloc last).2 })
    | none =>
        if reallocOk then
          ((membath_alloc (membath_init pool.bathSize pool.itemSize)).1.map
             (fun item => (pool.length, item)),
           { pool with
               length := pool.length + 1,
               baths := pool.baths ++
                 [(membath_alloc (membath_init pool.bathSize pool.itemSize)).2] })
        else
          (none, { pool with length := pool.length + 1 })

/-- Iterate `mempool_alloc` (with succeeding backing allocations) `n`
times, keeping the pool state. -/
def mempool_allocN (pool : mempool_s) : Nat → mempool_s
  | 0 => pool
  | n + 1 => (mempool_alloc true (mempool_allocN pool n)).2

/-- membath_release lifted to an address `(bathIdx, off)`: distinct baths
own disjoint malloc regions, so a pointer into bath `addr.1` fails the
bounds check of every bath with another index. -/
def membath_releaseAt (i : Nat) (bath : membath_s) (addr : Nat × Int) :
    Option Unit × membath_s :=
  if addr.1 = i then membath_release bath addr.2 else (none, bath)

/-- The scan loop of mempool_release: try baths `i, i+1, ...` while `fuel`
iterations remain (the loop runs `pool->length` times). -/
def mempool_releaseFrom (pool : mempool_s) (addr : Nat × Int) :
    Nat → Nat → Option Unit × mempool_s
  | _, 0 => (none, pool)
  | i, fuel + 1 =>
    match pool.baths.get? i with
    | none => (none, pool)
    | some bath =>
      match membath_releaseAt i bath addr with
      | (some _, bath2) => (some (), { pool with baths := pool.baths.set i bath2 })
      | (none, _) => mempool_releaseFrom pool addr (i + 1) fuel

/-- mempool_release: a NULL argument (`none`) fails immediately; otherwise
scan the baths first to last and delegate to the bath that claims the
address. -/
def mempool_release (pool : mempool_s) (ptr : Option (Nat × Int)) :
    Option Unit × mempool_s :=
  match ptr with
  | none => (none, pool)
  | some addr => mempool_releaseFrom pool addr 0 pool.length

/-- memcreek_s: a creek of `size` bytes with `length` bytes occupied.  The
byte buffer is not represented; creek results are byte offsets into it. -/
structure memcreek_s where
  size : Nat
  length : Nat
deriving DecidableEq

/-- memcreek_init on the successful-allocation path. -/
def memcreek_init (size : Nat) : memcreek_s :=
  { size := size, length := 0 }

/-- memcreek_alloc: fail when `size - length < sz` (a `size_t` subtraction;
it agrees with Nat subtraction whenever `length ≤ size`), otherwise return
the offset `length` and advance `length` by `sz`. -/
def memcreek_alloc (creek : memcreek_s) (sz : Nat) : Option Nat × memcreek_s :=
  if creek.size - creek.length < sz then (none, creek)
  else (some creek.length, { creek with length := creek.length + sz })

/-- memriver_s: `length` is the creek-count field of the C struct, `creeks`
the contents of the heap array. -/
structure memriver_s where
  length : Nat
  creekSize : Nat
  creeks : List memcreek_s
deriving DecidableEq

/-- memriver_init on the successful-allocation path: one creek of the
default size. -/
def memriver_init (creekSize : Nat) : memriver_s :=
  { length := 1
    creekSize := creekSize
    creeks := [memcreek_init creekSize] }

/-- addCreek: increment the `length` field (the C code does `++riv->length`
before the realloc); when the realloc succeeds append a creek of `size`
bytes and return its index, otherwise return NULL with the count already
incremented. -/
def addCreek (reallocOk : Bool) (riv : memriver_s) (size : Nat) :
    Option Nat × memriver_s :=
  let len := riv.length + 1
  if reallocOk then
    (some (len - 1),
     { riv with length := len, creeks := riv.creeks ++ [memcreek_init size] })
  else
    (none, { riv with length := len })

/-- The scan loop of memriver_alloc: `for(i = riv->length; i > 0; i--)`,
trying creek `i - 1` each iteration; on success return the creek index, the
offset, and the updated creek list. -/
def riverScan (creeks : List memcreek_s) (sz : Nat) :
    Nat → Option (Nat × Nat) × List memcreek_s
  | 0 => (none, creeks)
  | i + 1 =>
    match creeks.get? i with
    | none => riverScan creeks sz i
    | some crk =>
      match (memcreek_alloc crk sz).1 with
      | some off => (some (i, off), creeks.set i (memcreek_alloc crk sz).2)
      | none => riverScan creeks sz i

/-- The shared tail of both branches of memriver_alloc: `a` is the result
of addCreek; when it returned a creek (`crk` non-NULL in the C code) the
request is served from that creek by memcreek_alloc, otherwise the call
fails with the state addCreek left behind. -/
def riverFinish (a : Option Nat × memriver_s) (size : Nat) :
    Option (Nat × Nat) × memriver_s :=
  match a.1 with
  | none => (none, a.2)
  | some ci =>
    match a.2.creeks.get? ci with
    | none => (none, a.2)
    | some crk =>
      match (memcreek_alloc crk size).1 with
      | some off =>
          (some (ci, off),
           { a.2 with creeks := a.2.creeks.set ci (memcreek_alloc crk size).2 })
      | none => (none, a.2)

/-- memriver_alloc: an oversized request (`size > creekSize`) gets one new
creek of exactly `size` and is served from it; otherwise the creeks are
scanned last to first, and when none has room one new creek of `creekSize`
is appended and serves the request.  Results carry the index of the serving
creek and the byte offset within it. -/
def memriver_alloc (reallocOk : Bool) (riv : memriver_s) (size : Nat) :
    Option (Nat × Nat) × memriver_s :=
  if riv.creekSize < size then
    riverFinish (addCreek reallocOk riv size) size
  else
    match (riverScan riv.creeks size riv.length).1 with
    | some res => (some res, { riv with creeks := (riverScan riv.creeks size riv.length).2 })
    | none => riverFinish (addCreek reallocOk riv riv.creekSize) size

/-- One step of a precondition-respecting bath history: either any call of
membath_alloc, or a membath_release of an address previously obtained from
membath_alloc on this bath (hence of the form `i * itemSize` with
`i < size`) that is live at release time (equivalently, under such
histories, whose occupancy bit is set). -/
inductive bathStep : membath_s → membath_s → Prop
  | alloc (b : membath_s) : bathStep b (membath_alloc b).2
  | release (b : membath_s) (i : Nat) (hi : i < b.size) (hlive : b.useMap i = true) :
      bathStep b (membath_release b ((i * b.itemSize : Nat) : Int)).2

/-- The bath states reachable from a freshly initialized bath by
precondition-respecting alloc/release sequences. -/
def bathReachable (size itemSize : Nat) (b : membath_s) : Prop :=
  Relation.ReflTransGen bathStep (membath_init size itemSize) b

/-- Invariant of a pool after `n` allocations from a fresh pool with bath
size `k` and succeeding backing allocations: the count field matches the
array, the last bath has size `k` and holds the remainder of `n` modulo the
full baths before it, and it is non-empty unless it is the only bath. -/
def PoolInv (k n : Nat) (p : mempool_s) : Prop :=
  p.bathSize = k ∧
  p.length = p.baths.length ∧ 1 ≤ p.length ∧
  ∃ last, p.baths.get? (p.length - 1) = some last ∧
    last.size = k ∧ last.length ≤ k ∧
    n = (p.length - 1) * k + last.length ∧
    (p.length = 1 ∨ 1 ≤ last.length)

/-- A pool of 1-slot baths whose single bath is full: the state after one
allocation from `mempool_init 1 1`. -/
def fullPool : mempool_s := (mempool_alloc true (mempool_init 1 1)).2

/-- A capacity-3, item-size-1 bath after three allocations: full, with
slots 0, 1 and 2 handed out in that order. -/
def bugBank3 : membath_s :=
  (membath_alloc (membath_alloc (membath_alloc (membath_init 3 1)).2).2).2

/-- `bugBank3` after a release of the slot-1 item: three slots taken, then
slot 1 freed again. -/
def bugBank4 : membath_s := (membath_release bugBank3 1).2

/-- `bugBank4` after re-allocating (which takes slot 1 again): the bath is
full, but its free-slot hint still points at slot 1. -/
def bugBank5 : membath_s := (membath_alloc bugBank4).2

/-- `bugBank5` after releasing the slot-2 item: because slot 2 is above the
stale hint, the hint keeps pointing at the occupied slot 1. -/
def bugBank6 : membath_s := (membath_release bugBank5 2).2

/-- `bugBank6` after one more allocation: the allocator hands out slot 1 a
second time while the `bugBank4`-allocation of slot 1 is still live. -/
def bugBank7 : membath_s := (membath_alloc bugBank6).2

/-- A creek of 4 bytes with 1 byte occupied, used as a concrete instance. -/
def creek41 : memcreek_s := { size := 4, length := 1 }

/-- membath_alloc fails exactly on a full bath (`length >= size` in the C
guard). -/
theorem membath_alloc_none_iff (b : membath_s) :
    (membath_alloc b).1 = none ↔ b.size ≤ b.length := by
  unfold membath_alloc
  split
  next h => simpa using h
  next h => simpa using h

/-- membath_alloc on a full bath is a no-op returning NULL. -/
theorem membath_alloc_full (b : membath_s) (h : b.size ≤ b.length) :
    membath_alloc b = (none, b) := by
  unfold membath_alloc
  rw [if_pos h]

/-- membath_alloc on a non-full bath returns the hinted slot. -/
theorem membath_alloc_some (b : membath_s) (h : b.length < b.size) :
    (membath_alloc b).1 = some b.firstFree := by
  unfold membath_alloc
  rw [if_neg (by omega)]

/-- membath_alloc does not change the capacity. -/
theorem membath_alloc_size (b : membath_s) : (membath_alloc b).2.size = b.size := by
  unfold membath_alloc
  split <;> rfl

/-- membath_alloc does not change the item size. -/
theorem membath_alloc_itemSize (b : membath_s) :
    (membath_alloc b).2.itemSize = b.itemSize := by
  unfold membath_alloc
  split <;> rfl

/-- membath_alloc on a non-full bath increments the live count. -/
theorem membath_alloc_length (b : membath_s) (h : b.length < b.size) :
    (membath_alloc b).2.length = b.length + 1 := by
  unfold membath_alloc
  rw [if_neg (by omega)]

/-- membath_release does not change the capacity. -/
theorem membath_release_size (b : membath_s) (off : Int) :
    (membath_release b off).2.size = b.size := by
  unfold membath_release
  split <;> rfl

/-- membath_release never increases the live count. -/
theorem membath_release_length_le (b : membath_s) (off : Int) :
    (membath_release b off).2.length ≤ b.length := by
  unfold membath_release
  split
  · exact Nat.le_refl _
  · exact Nat.sub_le _ _

/-- A bath step preserves the capacity. -/
theorem bathStep_size {b c : membath_s} (h : bathStep b c) : c.size = b.size := by
  cases h with
  | alloc => exact membath_alloc_size b
  | release i hi hlive => exact membath_release_size b _

/-- A bath step preserves `length ≤ size`. -/
theorem bathStep_length_le {b c : membath_s} (h : bathStep b c)
    (hb : b.length ≤ b.size) : c.length ≤ c.size := by
  cases h with
  | alloc =>
    rw [membath_alloc_size]
    by_cases hf : b.size ≤ b.length
    · rw [membath_alloc_full b hf]
      exact hb
    · rw [membath_alloc_length b (by omega)]
      omega
  | release i hi hlive =>
    rw [membath_release_size]
    exact le_trans (membath_release_length_le b _) hb

/-- Along precondition-respecting histories the live count never exceeds
the capacity. -/
theorem bathReachable_length_le {k isz : Nat} {b : membath_s}
    (h : bathReachable k isz b) : b.length ≤ b.size := by
  unfold bathReachable at h
  induction h with
  | refl => exact Nat.zero_le _
  | tail hsteps hstep ih => exact bathStep_length_le hstep ih

/-- Claim C1: the code violates the claimed invariant.  On a capacity-3
bath, the precondition-respecting history alloc, alloc, alloc,
release(slot 1), alloc, release(slot 2), alloc hands out slot 1 a second
time while the previous slot-1 allocation is still live, and afterwards
`length = 3` while only 2 occupancy bits are set.  Each conjunct below
checks one step of that history: the three initial allocations return
slots 0, 1, 2; both released addresses are live at release time (their
occupancy bit is set and they were returned by an earlier alloc); the
fifth allocation legitimately re-takes slot 1; the last allocation returns
slot 1 again even though it is live; and the final state has
`liveCount = 3` but popcount 2. -/
theorem claim1_invariant_violated :
    (membath_alloc (membath_init 3 1)).1 = some 0 ∧
    (membath_alloc (membath_alloc (membath_init 3 1)).2).1 = some 1 ∧
    (membath_alloc (membath_alloc (membath_alloc (membath_init 3 1)).2).2).1 = some 2 ∧
    bugBank3.useMap 1 = true ∧
    (membath_release bugBank3 1).1 = some () ∧
    (membath_alloc bugBank4).1 = some 1 ∧
    bugBank5.useMap 2 = true ∧
    (membath_release bugBank5 2).1 = some () ∧
    bugBank6.useMap 1 = true ∧
    (membath_alloc bugBank6).1 = some 1 ∧
    bugBank7.length = 3 ∧
    popcount bugBank7 = 2 := by
  decide

/-- Claim C2: the code violates the claimed hint behaviour.  After an
allocation that fills a capacity-1 bath, the forward scan finds no free
slot and leaves `firstFree` at the just-taken index 0, which is below the
capacity, not `≥ capacity` as claimed. -/
theorem claim2_hint_not_advanced_past_capacity :
    (membath_alloc (membath_init 1 1)).2.length =
      (membath_alloc (membath_init 1 1)).2.size ∧
    (membath_alloc (membath_init 1 1)).2.firstFree <
      (membath_alloc (membath_init 1 1)).2.size := by
  decide

/-- Counterexample to claim C3: on a bath with capacity 2 and item size 4,
the byte offset 2 lies inside the half-open owned range `[0, 8)` but is not
slot-aligned (`2 % 4 ≠ 0`), so the claim predicts failure; membath_release
nevertheless succeeds, because the C code never checks alignment. -/
theorem claim3_counterexample :
    (membath_release (membath_init 2 4) 2).1 = some () ∧
    (membath_init 2 4).size = 2 ∧
    (membath_init 2 4).itemSize = 4 ∧
    (0 : Int) ≤ 2 ∧ (2 : Int) < 2 * 4 ∧ (2 : Int) % 4 ≠ 0 := by
  decide

/-- Claim C3 as amended: membath_release fails exactly when the byte offset
is negative or greater than `capacity * itemSize` (the end address itself
is accepted and alignment is never checked), and a failing call leaves the
bath unchanged. -/
theorem claim3_release_fail_iff_out_of_range (bath : membath_s) (off : Int) :
    ((membath_release bath off).1 = none ↔
      (off < 0 ∨ ((bath.size * bath.itemSize : Nat) : Int) < off)) ∧
    ((membath_release bath off).1 = none →
      (membath_release bath off).2 = bath) := by
  unfold membath_release
  split
  next h => exact ⟨by simpa using h, fun _ => rfl⟩
  next h => exact ⟨by simpa using h, by simp⟩

/-- Claim C4: the code violates the claimed all-or-nothing failure.  With a
full single bath of capacity 1, a mempool_alloc whose array realloc fails
returns NULL but leaves the pool's bath-count field incremented to 2 while
the bath array still holds 1 bath; likewise an oversized memriver_alloc
whose addCreek realloc fails returns NULL with the creek count incremented
to 2 while the creek array still holds 1 creek. -/
theorem claim4_partial_mutation_on_failure :
    fullPool.length = 1 ∧
    fullPool.baths.length = 1 ∧
    (mempool_alloc false fullPool).1 = none ∧
    (mempool_alloc false fullPool).2.length = 2 ∧
    (mempool_alloc false fullPool).2.baths.length = 1 ∧
    (memriver_init 4).length = 1 ∧
    (memriver_alloc false (memriver_init 4) 10).1 = none ∧
    (memriver_alloc false (memriver_init 4) 10).2.length = 2 ∧
    (memriver_alloc false (memriver_init 4) 10).2.creeks.length = 1 := by
  decide

/-- Claim C6: on every bath reachable by a precondition-respecting
alloc/release history, membath_alloc returns NULL exactly when the live
count equals the capacity. -/
theorem claim6_alloc_none_iff_full (k isz : Nat) (b : membath_s)
    (h : bathReachable k isz b) :
    (membath_alloc b).1 = none ↔ b.length = b.size := by
  have hle := bathReachable_length_le h
  rw [membath_alloc_none_iff]
  omega

/-- Witness for claim C6 at the freshly initialized capacity-1 bath. -/
theorem claim6_witness :
    ((membath_alloc (membath_init 1 4)).1 = none ↔
      (membath_init 1 4).length = (membath_init 1 4).size) :=
  claim6_alloc_none_iff_full 1 4 (membath_init 1 4) Relation.ReflTransGen.refl

/-- Setting an element does not change the prefix before it. -/
theorem take_set_self {α : Type} (l : List α) (n : Nat) (a : α) :
    (l.set n a).take n = l.take n := by
  induction l generalizing n with
  | nil => simp
  | cons x xs ih =>
    cases n with
    | zero => simp
    | succ m => simp [List.set, ih]

/-- Reading back an element just set, at an in-bounds index. -/
theorem get?_set_self {α : Type} (l : List α) (n : Nat) (a : α)
    (h : n < l.length) : (l.set n a).get? n = some a := by
  induction l generalizing n with
  | nil => simp at h
  | cons x xs ih =>
    cases n with
    | zero => rfl
    | succ m =>
      simp only [List.set, List.get?]
      exact ih m (by simpa using h)

/-- Setting the appended last element of a list. -/
theorem set_concat_self {α : Type} (l : List α) (a b : α) :
    (l ++ [a]).set l.length b = l ++ [b] := by
  induction l with
  | nil => rfl
  | cons x xs ih => simp [List.set, ih]

/-- Claim C8: memcreek_alloc fails exactly when `capacity - occupiedLength
< size`; otherwise it returns the byte offset `occupiedLength` (the start
of the range `[occupiedLength, occupiedLength + size)`) and advances
`occupiedLength` by exactly `size`; in both cases `occupiedLength ≤
capacity` is preserved. -/
theorem claim8_creek_alloc_spec (creek : memcreek_s) (sz : Nat)
    (h : creek.length ≤ creek.size) :
    ((memcreek_alloc creek sz).1 = none ↔ creek.size - creek.length < sz) ∧
    (creek.size - creek.length < sz → (memcreek_alloc creek sz).2 = creek) ∧
    (¬ creek.size - creek.length < sz →
      (memcreek_alloc creek sz).1 = some creek.length ∧
      (memcreek_alloc creek sz).2.length = creek.length + sz) ∧
    (memcreek_alloc creek sz).2.length ≤ (memcreek_alloc creek sz).2.size := by
  unfold memcreek_alloc
  split
  next hc =>
    exact ⟨by simpa using hc, fun _ => rfl, fun hn => absurd hc hn, h⟩
  next hc =>
    refine ⟨by simpa using hc, fun hcc => absurd hcc hc, fun _ => ⟨rfl, rfl⟩, ?_⟩
    show creek.length + sz ≤ creek.size
    omega

/-- Witness for claim C8 on a creek of 4 bytes with 1 occupied and a
2-byte request. -/
theorem claim8_witness :
    ((memcreek_alloc creek41 2).1 = none ↔ creek41.size - creek41.length < 2) ∧
    (creek41.size - creek41.length < 2 → (memcreek_alloc creek41 2).2 = creek41) ∧
    (¬ creek41.size - creek41.length < 2 →
      (memcreek_alloc creek41 2).1 = some creek41.length ∧
      (memcreek_alloc creek41 2).2.length = creek41.length + 2) ∧
    (memcreek_alloc creek41 2).2.length ≤ (memcreek_alloc creek41 2).2.size :=
  claim8_creek_alloc_spec creek41 2 (by decide)

/-- Claim C9: mempool_alloc serves the request from the bath at index
`length - 1`, or from the freshly appended bath at index `length`, and
leaves every bath before index `length - 1` untouched; capacity freed in
those baths is therefore never reused. -/
theorem claim9_alloc_only_last_bank (pool : mempool_s) (i s : Nat)
    (hv : pool.length = pool.baths.length) (hpos : 1 ≤ pool.length)
    (hres : (mempool_alloc true pool).1 = some (i, s)) :
    (i = pool.length - 1 ∨ i = pool.length) ∧
    (mempool_alloc true pool).2.baths.take (pool.length - 1) =
      pool.baths.take (pool.length - 1) := by
  obtain ⟨last, hget⟩ : ∃ last, pool.baths.get? (pool.length - 1) = some last := by
    cases hg : pool.baths.get? (pool.length - 1) with
    | none => rw [List.get?_eq_none] at hg; omega
    | some x => exact ⟨x, rfl⟩
  unfold mempool_alloc at hres ⊢
  simp only [hget] at hres ⊢
  cases hcase : (membath_alloc last).1 with
  | some item =>
    simp only [hcase, Option.some.injEq, Prod.mk.injEq] at hres ⊢
    exact ⟨Or.inl hres.1.symm, take_set_self _ _ _⟩
  | none =>
    simp only [hcase, if_pos, Option.map_eq_some', Prod.mk.injEq] at hres ⊢
    obtain ⟨item, hitem, hi, hs⟩ := hres
    refine ⟨Or.inr hi.symm, ?_⟩
    rw [List.take_append_of_le_length (by omega)]

/-- Witness for claim C9 on a fresh pool with bath size 2: the first
allocation is served by bath 0 = length - 1. -/
theorem claim9_witness :
    (0 = (mempool_init 2 1).length - 1 ∨ 0 = (mempool_init 2 1).length) ∧
    (mempool_alloc true (mempool_init 2 1)).2.baths.take
        ((mempool_init 2 1).length - 1) =
      (mempool_init 2 1).baths.take ((mempool_init 2 1).length - 1) :=
  claim9_alloc_only_last_bank (mempool_init 2 1) 0 0 rfl (by decide) (by decide)

/-- Claim C10: mempool_release with a NULL pointer fails immediately and
returns with the pool unchanged, before the bath scan starts. -/
theorem claim10_release_null (pool : mempool_s) :
    mempool_release pool none = (none, pool) := rfl

/-- The pool invariant holds for a fresh pool (zero allocations). -/
theorem PoolInv_init (k isz : Nat) : PoolInv k 0 (mempool_init k isz) :=
  ⟨rfl, rfl, Nat.le_refl 1, membath_init k isz, rfl, rfl, Nat.zero_le k,
   by simp [membath_init, mempool_init], Or.inl rfl⟩

/-- The pool invariant is preserved by one allocation with succeeding
backing allocations. -/
theorem PoolInv_step (k n : Nat) (hk : 1 ≤ k) (p : mempool_s)
    (h : PoolInv k n p) : PoolInv k (n + 1) (mempool_alloc true p).2 := by
  obtain ⟨hbs, hlen, hpos, last, hget, hsize, hle, hn, hdisj⟩ := h
  unfold mempool_alloc
  simp only [hget]
  by_cases hfull : last.size ≤ last.length
  · have hlast : last.length = k := by omega
    have hnone : (membath_alloc last).1 = none :=
      (membath_alloc_none_iff last).mpr hfull
    simp only [hnone, if_pos]
    have hfl : (membath_init p.bathSize p.itemSize).length <
        (membath_init p.bathSize p.itemSize).size := by
      show 0 < p.bathSize
      omega
    have hnb : (membath_alloc (membath_init p.bathSize p.itemSize)).2.length = 1 := by
      rw [membath_alloc_length _ hfl]
      rfl
    refine ⟨hbs, by simp [hlen], by show 1 ≤ p.length + 1; omega,
      (membath_alloc (membath_init p.bathSize p.itemSize)).2, ?_, ?_, ?_, ?_,
      Or.inr (le_of_eq hnb.symm)⟩
    · show (p.baths ++ [_]).get? (p.length + 1 - 1) = _
      simp only [Nat.add_sub_cancel]
      rw [hlen]
      exact List.get?_concat_length _ _
    · rw [membath_alloc_size]
      exact hbs
    · rw [hnb]
      omega
    · show n + 1 = (p.length + 1 - 1) * k +
        (membath_alloc (membath_init p.bathSize p.itemSize)).2.length
      rw [hnb, Nat.add_sub_cancel]
      have hB : p.length = (p.length - 1) + 1 := by omega
      have e : p.length * k = (p.length - 1) * k + k := by
        conv_lhs => rw [hB]
        rw [Nat.succ_mul]
      rw [e, hn, hlast]
  · have hnf : last.length < last.size := by omega
    have hsome : (membath_alloc last).1 = some last.firstFree :=
      membath_alloc_some last hnf
    simp only [hsome]
    have hlk : last.length < k := by rw [← hsize]; exact hnf
    have hnb : (membath_alloc last).2.length = last.length + 1 :=
      membath_alloc_length last hnf
    obtain ⟨M, hM⟩ : ∃ M, (p.length - 1) * k = M := ⟨_, rfl⟩
    rw [hM] at hn
    refine ⟨hbs, by simp [hlen], hpos, (membath_alloc last).2, ?_, ?_, ?_, ?_, Or.inr (by omega)⟩
    · exact get?_set_self _ _ _ (by omega)
    · rw [membath_alloc_size]
      exact hsize
    · omega
    · show n + 1 = (p.length - 1) * k + (membath_alloc last).2.length
      rw [hM, hnb]
      omega

/-- The pool invariant after `n` allocations from a fresh pool. -/
theorem PoolInv_allocN (k isz : Nat) (hk : 1 ≤ k) (n : Nat) :
    PoolInv k n (mempool_allocN (mempool_init k isz) n) := by
  induction n with
  | zero => exact PoolInv_init k isz
  | succ m ih => exact PoolInv_step k m hk _ ih

/-- Ceiling-division arithmetic: with `1 ≤ l ≤ k`, the ceiling of
`(B*k + l) / k` is `B + 1`. -/
theorem ceil_div_step (k B l : Nat) (hk : 1 ≤ k) (hl1 : 1 ≤ l) (hlk : l ≤ k) :
    (B * k + l + k - 1) / k = B + 1 := by
  have e : B * k + l + k - 1 = k * B + (l + k - 1) := by
    rw [Nat.mul_comm k B]
    generalize B * k = M
    omega
  rw [e, Nat.mul_add_div (by omega)]
  have h1 : (l + k - 1) / k = 1 := by
    apply Nat.div_eq_of_lt_le
    · omega
    · omega
  rw [h1]

/-- Counterexample to claim C5: the claim includes `n = 0`, but a freshly
initialized pool already owns one bank while `ceil(0 / k) = 0`. -/
theorem claim5_counterexample :
    (mempool_allocN (mempool_init 2 4) 0).length = 1 ∧ (0 + 2 - 1) / 2 = 0 := by
  decide

/-- Claim C5 as amended: for bank capacity `k ≥ 1` and `n ≥ 1`
allocations with no releases (all of which succeed), the pool's bank-count
field equals `ceil(n / k)`; at `n = 0` the count is 1, not `ceil(0/k) = 0`. -/
theorem claim5_bank_count (k isz n : Nat) (hk : 1 ≤ k) (hn : 1 ≤ n) :
    (mempool_allocN (mempool_init k isz) n).length = (n + k - 1) / k := by
  have h := PoolInv_allocN k isz hk n
  revert h
  generalize mempool_allocN (mempool_init k isz) n = p
  intro h
  obtain ⟨hbs, hlen, hpos, last, hget, hsize, hle, hfn, hdisj⟩ := h
  have hl1 : 1 ≤ last.length := by
    rcases hdisj with h1 | h1
    · rw [h1] at hfn
      simp at hfn
      omega
    · exact h1
  rw [hfn, ceil_div_step k (p.length - 1) last.length hk hl1 hle]
  omega

/-- Witness for claim C5: three allocations on a fresh pool with bank
capacity 2 yield `ceil(3/2) = 2` banks. -/
theorem claim5_witness :
    (mempool_allocN (mempool_init 2 1) 3).length = (3 + 2 - 1) / 2 :=
  claim5_bank_count 2 1 3 (by decide) (by decide)

/-- memcreek_alloc fails exactly when the remaining room is short. -/
theorem memcreek_alloc_none_iff (c : memcreek_s) (sz : Nat) :
    (memcreek_alloc c sz).1 = none ↔ c.size - c.length < sz := by
  unfold memcreek_alloc
  split
  next h => simpa using h
  next h => simpa using h

/-- When the creek scan of memriver_alloc serves a request from creek `j`,
that creek had room for the request. -/
theorem riverScan_some_spec (creeks : List memcreek_s) (sz : Nat) :
    ∀ n j off, (riverScan creeks sz n).1 = some (j, off) →
      ∃ crk, creeks.get? j = some crk ∧ ¬ crk.size - crk.length < sz := by
  intro n
  induction n with
  | zero =>
    intro j off h
    simp [riverScan] at h
  | succ i ih =>
    intro j off h
    unfold riverScan at h
    cases hg : creeks.get? i with
    | none =>
      rw [hg] at h
      exact ih j off h
    | some crk =>
      simp only [hg] at h
      cases ha : (memcreek_alloc crk sz).1 with
      | none =>
        simp only [ha] at h
        exact ih j off h
      | some o =>
        simp only [ha, Option.some.injEq, Prod.mk.injEq] at h
        obtain ⟨hj, hoff⟩ := h
        subst hj
        refine ⟨crk, hg, fun hc => ?_⟩
        have hn := (memcreek_alloc_none_iff crk sz).mpr hc
        rw [hn] at ha
        exact Option.noConfusion ha

/-- The success case of memcreek_alloc as a state equation. -/
theorem memcreek_alloc_some (c : memcreek_s) (sz : Nat)
    (h : ¬ c.size - c.length < sz) :
    memcreek_alloc c sz = (some c.length, { c with length := c.length + sz }) := by
  unfold memcreek_alloc
  rw [if_neg h]

/-- memcreek_alloc on a fresh creek that fits the request. -/
theorem memcreek_alloc_fresh (c sz : Nat) (hfit : sz ≤ c) :
    memcreek_alloc { size := c, length := 0 } sz =
      (some 0, { size := c, length := sz }) := by
  rw [memcreek_alloc_some _ _ (show ¬ (c - 0 < sz) by omega)]
  simp

/-- addCreek with a succeeding realloc followed by the creek allocation of
memriver_alloc: the request is served at offset 0 of the new creek, whose
index is the old creek count. -/
theorem riverFinish_addCreek (riv : memriver_s) (c sz : Nat)
    (hv : riv.length = riv.creeks.length) (hfit : sz ≤ c) :
    (riverFinish (addCreek true riv c) sz).1 = some (riv.length, 0) := by
  have hgc : (riv.creeks ++ [({ size := c, length := 0 } : memcreek_s)]).get?
      riv.length = some { size := c, length := 0 } := by
    rw [hv]
    exact List.get?_concat_length _ _
  unfold addCreek riverFinish
  simp only [if_pos, Nat.add_sub_cancel, memcreek_init, hgc,
    memcreek_alloc_fresh c sz hfit]

/-- The full state equation for an oversized memriver_alloc with a
succeeding realloc: one creek of exactly the requested size is appended,
the request is served at its offset 0, and the new creek is full. -/
theorem memriver_alloc_oversized (riv : memriver_s) (s : Nat)
    (hv : riv.length = riv.creeks.length) (hs : riv.creekSize < s) :
    memriver_alloc true riv s =
      (some (riv.length, 0),
       { riv with length := riv.length + 1,
                  creeks := riv.creeks ++ [{ size := s, length := s }] }) := by
  have hgc : (riv.creeks ++ [({ size := s, length := 0 } : memcreek_s)]).get?
      riv.length = some { size := s, length := 0 } := by
    rw [hv]
    exact List.get?_concat_length _ _
  unfold memriver_alloc addCreek riverFinish
  rw [if_pos hs]
  simp only [if_pos, Nat.add_sub_cancel, memcreek_init, hgc,
    memcreek_alloc_fresh s s (Nat.le_refl s)]
  rw [hv, set_concat_self]

/-- Claim C7 as amended: an oversized request (`s > defaultCapacity`)
appends exactly one arena of capacity exactly `s`, serves the whole
request from it at offset 0, and leaves that arena full; a subsequent
request of any size `sz` with `1 ≤ sz ≤ defaultCapacity` is never served
from that arena (a zero-size request, however, is: see the
counterexample). -/
theorem claim7_oversized_arena (riv : memriver_s) (s sz : Nat)
    (hv : riv.length = riv.creeks.length) (hs : riv.creekSize < s)
    (hsz1 : 1 ≤ sz) (hsz2 : sz ≤ riv.creekSize) :
    (memriver_alloc true riv s).1 = some (riv.length, 0) ∧
    (memriver_alloc true riv s).2.length = riv.length + 1 ∧
    (memriver_alloc true riv s).2.creeks =
      riv.creeks ++ [{ size := s, length := s }] ∧
    (memriver_alloc true (memriver_alloc true riv s).2 sz).1.map Prod.fst ≠
      some riv.length := by
  rw [memriver_alloc_oversized riv s hv hs]
  refine ⟨rfl, rfl, rfl, ?_⟩
  unfold memriver_alloc
  dsimp only
  rw [if_neg (by omega : ¬ riv.creekSize < sz)]
  cases hscan : (riverScan (riv.creeks ++ [{ size := s, length := s }]) sz
      (riv.length + 1)).1 with
  | some res =>
    obtain ⟨j, off⟩ := res
    obtain ⟨crk, hgj, hok⟩ :=
      riverScan_some_spec (riv.creeks ++ [{ size := s, length := s }]) sz
        (riv.length + 1) j off hscan
    simp only [hscan, Option.map_some', ne_eq, Option.some.injEq]
    intro hj
    subst hj
    rw [hv, List.get?_concat_length] at hgj
    obtain rfl : crk = { size := s, length := s } := by
      exact Option.some.inj hgj.symm
    simp at hok
    omega
  | none =>
    simp only [hscan]
    rw [riverFinish_addCreek _ _ _ (by simp [hv]) hsz2]
    simp

/-- Counterexample to claim C7: a zero-byte request after the oversized
allocation is served from the oversized, full arena (creek index 1, at its
one-past-the-end offset 20), because `capacity - occupiedLength < 0` never
holds; the claim says a request of size `≤ defaultCapacity` is never served
from that arena. -/
theorem claim7_counterexample :
    (memriver_alloc true (memriver_init 16) 20).1 = some (1, 0) ∧
    (memriver_alloc true (memriver_init 16) 20).2.creeks.get? 1 =
      some { size := 20, length := 20 } ∧
    (memriver_alloc true (memriver_alloc true (memriver_init 16) 20).2 0).1 =
      some (1, 20) := by
  decide

/-- Witness for claim C7 on a river with default capacity 16, an
oversized 20-byte request, and a subsequent 8-byte request. -/
theorem claim7_witness :
    (memriver_alloc true (memriver_init 16) 20).1 =
      some ((memriver_init 16).length, 0) ∧
    (memriver_alloc true (memriver_init 16) 20).2.length =
      (memriver_init 16).length + 1 ∧
    (memriver_alloc true (memriver_init 16) 20).2.creeks =
      (memriver_init 16).creeks ++ [{ size := 20, length := 20 }] ∧
    (memriver_alloc true (memriver_alloc true (memriver_init 16) 20).2 8).1.map
        Prod.fst ≠ some (memriver_init 16).length :=
  claim7_oversized_arena (memriver_init 16) 20 8 rfl (by decide) (by decide)
    (by decide)

end LiquidMem
